import Mathlib

/-!
Verification of the openvino_xai saliency-map engine.

Shallow embedding of the three source files:
 - src/methods.py — white-box saliency-branch synthesizers
   (ActivationMap, ReciproCAM, DetClassProbabilityMap);
 - src/openvino_xai/algorithms/black_box/black_box_methods.py — RISE;
 - src/openvino_xai/explain.py — orchestration (only the RISE helpers matter here).

Tensors are modelled either at value level (index functions into ℚ, or nested
lists) or at shape level (lists of dimension sizes), depending on what the
property under scrutiny is about.  Fallible operations (OpenVINO node
validation, numpy broadcasting and indexing) return Except.
-/

/-! ## Recipro-CAM mosaic mask (methods.py, ReciproCAMXAIMethod.generate_xai_branch) -/

/-- Entry (i, j) of np.reshape(np.arange(h*w), (h, w)), the raster-order index
of spatial position (i, j). -/
def spacial_order (w i j : Nat) : Nat := i * w + j

/-- One loop-body step of the mask construction:
mosaic_feature_map_mask[k, :, i, j] = np.ones((c)), with k = spacial_order[i, j].
The array is modelled as a total index function (k, channel, i, j) ↦ value;
the assignment touches every channel at spatial cell (i, j) of batch slice k. -/
def maskAssign (w : Nat) (m : Nat → Nat → Nat → Nat → ℚ) (i j : Nat) :
    Nat → Nat → Nat → Nat → ℚ :=
  fun k ci i2 j2 => if k = spacial_order w i j ∧ i2 = i ∧ j2 = j then 1 else m k ci i2 j2

/-- The mosaic mask tensor of methods.py lines 71-77: start from
np.zeros((h*w, c, h, w)) and run the double loop over i < h, j < w.
The channel extent c does not influence the stored values (all channels are
written together), so it is not a parameter of the index function. -/
def mosaic_feature_map_mask (h w : Nat) : Nat → Nat → Nat → Nat → ℚ :=
  (List.range h).foldl
    (fun m i => (List.range w).foldl (fun m2 j => maskAssign w m2 i j) m)
    (fun _ _ _ _ => 0)

/-! ## Activation-Map synthesizer (methods.py, ActivationMapXAIMethod) -/

/-- Output-shape semantics of opset reduce ops (reduce_mean / reduce_max) on a
single axis: the axis is kept as size 1 when keep_dims is true, dropped
otherwise. -/
def reduceAxisShape (s : List Nat) (axis : Nat) (keepDims : Bool) : List Nat :=
  if keepDims then s.set axis 1 else s.eraseIdx axis

/-- ActivationMapXAIMethod sets self.per_class = False in its constructor. -/
def activationMap_per_class : Bool := false

/-- ActivationMapXAIMethod.generate_xai_branch, at shape level:
opset.reduce_mean(output_backbone_node.output(0), 1) — axis 1, and keep_dims
takes its opset default, False. -/
def activationMap_generate_xai_branch (backboneShape : List Nat) : List Nat :=
  reduceAxisShape backboneShape 1 false

/-! ## Detection Class-Probability-Map synthesizer (methods.py, DetClassProbabilityMapXAIMethod) -/

/-- A node of the OpenVINO graph, reduced to what generate_xai_branch reads:
its friendly name and the static shape of its output port 0. -/
structure OVNode where
  friendly_name : String
  out_shape : List Nat
deriving DecidableEq, Repr

/-- Errors surfaced by the embedded operations.  The first group models the
exceptions the Python code can actually hit (OpenVINO node validation, numpy
broadcasting, list indexing, tuple unpacking, division by zero); the last two
constructors name the error classes the specification postulates, which the
code under analysis never constructs. -/
inductive XaiError where
  | reshapeMismatch
  | concatMismatch
  | softmaxRank
  | indexError
  | unpackError
  | zeroDivision
  | broadcastError
  | inconsistentClassCount
  | inconsistentOutputShape
deriving DecidableEq, Repr

/-- methods.py lines 102-105: walk get_ordered_ops() (graph order) and keep the
ops whose friendly name is in the given list.  Note the resulting order is the
graph order, not the order of the name list. -/
def collectClsHeadNodes (ops : List OVNode) (names : List String) : List OVNode :=
  ops.filter (fun op => decide (op.friendly_name ∈ names))

/-- opset.softmax(node.output(0), 1) at shape level: the shape is preserved;
validation requires the axis to exist (rank at least 2). -/
def softmaxShape (s : List Nat) : Except XaiError (List Nat) :=
  if 2 ≤ s.length then .ok s else .error .softmaxRank

/-- The list comprehension of line 107 applied to the collected node shapes. -/
def softmaxAll : List (List Nat) → Except XaiError (List (List Nat))
  | [] => .ok []
  | s :: rest => do
    let t ← softmaxShape s
    let ts ← softmaxAll rest
    .ok (t :: ts)

/-- Python negative indexing xs[-1]: IndexError on an empty list. -/
def getLastE {α : Type} (l : List α) : Except XaiError α :=
  match l.getLast? with
  | some a => .ok a
  | none => .error .indexError

/-- The tuple unpacking `_, num_channels, _, _ = node.get_output_partial_shape(0)`
of line 109: requires the shape to have exactly 4 dimensions. -/
def unpackChannels (s : List Nat) : Except XaiError Nat :=
  match s with
  | [_, ch, _, _] => .ok ch
  | _ => .error .unpackError

/-- Python integer floor division a // b, raising ZeroDivisionError. -/
def intDiv (a b : Nat) : Except XaiError Nat :=
  if b = 0 then .error .zeroDivision else .ok (a / b)

/-- Number of elements of a static shape. -/
def shapeNumel (s : List Nat) : Nat := s.foldl (· * ·) 1

/-- opset.reshape(node, target, special_zero=False) at shape level: OpenVINO
validates that the static element counts agree, else node creation fails. -/
def reshapeTo (s target : List Nat) : Except XaiError (List Nat) :=
  if shapeNumel s = shapeNumel target then .ok target else .error .reshapeMismatch

/-- The per-scale body of the anchor-handling loop (lines 113-122) followed by
the interpolate of lines 125-132, for one scale with anchor count a:
unpack `_, _, h, w`, reshape to (1, a, K, h, w), reduce_max over axis 1
(keep_dims default False), then interpolate to output_shape (1, K, sh, sw). -/
def processScaleShape (K a sh sw : Nat) (s : List Nat) : Except XaiError (List Nat) := do
  match s with
  | [n, ch, hh, ww] => do
    let r ← reshapeTo [n, ch, hh, ww] [1, a, K, hh, ww]
    let _ := reduceAxisShape r 1 false
    .ok [1, K, sh, sw]
  | _ => .error .unpackError

/-- The two scale loops, walking the collected scales in order and pairing
scale index s with num_anchors[s]; running out of anchors is the IndexError of
self._num_anchors[scale_idx]. -/
def anchorLoop (K sh sw : Nat) : List (List Nat) → List Nat → Except XaiError (List (List Nat))
  | [], _ => .ok []
  | _ :: _, [] => .error .indexError
  | s :: rest, a :: arest => do
    let t ← processScaleShape K a sh sw s
    let ts ← anchorLoop K sh sw rest arest
    .ok (t :: ts)

/-- opset.concat(nodes, 0) at shape level: at least one input; all inputs must
agree on every dimension but axis 0, which is summed. -/
def concatShape0 (shapes : List (List Nat)) : Except XaiError (List Nat) :=
  match shapes with
  | [] => .error .indexError
  | s :: rest =>
    if rest.all (fun t => decide (t.drop 1 = s.drop 1) && decide (t.length = s.length)) then
      .ok ((s.headD 0 + (rest.map (fun t => t.headD 0)).sum) :: s.drop 1)
    else .error .concatMismatch

/-- DetClassProbabilityMapXAIMethod.generate_xai_branch (methods.py 101-137) at
shape level: collect the named class-head outputs in graph order, softmax each,
derive num_cls_out_channels from the LAST scale (channels // anchors), run the
anchor and interpolate loops, concat on axis 0 and reduce_mean with
keep_dims=True. -/
def det_generate_xai_branch (ops : List OVNode) (names : List String)
    (anchors : List Nat) (sh sw : Nat) : Except XaiError (List Nat) := do
  let nodes := collectClsHeadNodes ops names
  let shapes ← softmaxAll (nodes.map (·.out_shape))
  let lastShape ← getLastE shapes
  let ch ← unpackChannels lastShape
  let aLast ← getLastE anchors
  let K ← intDiv ch aLast
  let reduced ← anchorLoop K sh sw shapes anchors
  let cat ← concatShape0 reduced
  .ok (reduceAxisShape cat 0 true)

/-- Channel dimension of a shape, used to state the per-scale implied class
count channels_s / anchors_s. -/
def chanDim (s : List Nat) : Nat := s.getD 1 0

/-! ## RISE synchronous loop (black_box_methods.py, RISE._run_synchronous_explanation) -/

/-- Shape-level semantics of RISE._get_scored_mask: the length of the leading
axis of `scores.reshape(-1,1,1) * mask`.  `if target_classes:` is falsy for
both None and the empty list, in which case all scoresLen classes contribute;
for a nonempty list np.take gathers at the given flat indices (IndexError when
one is out of bounds). -/
def get_scored_mask_len (scoresLen : Nat) (targets : Option (List Nat)) : Except XaiError Nat :=
  match targets with
  | some (t :: ts) =>
    if (t :: ts).all (fun x => decide (x < scoresLen)) then .ok (t :: ts).length
    else .error .indexError
  | _ => .ok scoresLen

/-- One `sal_maps += sal` of the sampling loop, at shape level: the in-place
add of a (contribLen, H, W) array into the (numTargets, H, W) accumulator is a
numpy broadcast, legal exactly when contribLen equals numTargets or 1. -/
def accStep (numTargets contribLen : Nat) : Except XaiError Unit :=
  if contribLen = numTargets ∨ contribLen = 1 then .ok () else .error .broadcastError

/-- The sampling loop over the given iteration indices.  scoresLen i is the
length of the postprocessed score vector the opaque model returns on loop
iteration i. -/
def accLoop (numTargets : Nat) (scoresLen : Nat → Nat) (targets : Option (List Nat)) :
    List Nat → Except XaiError Unit
  | [] => .ok ()
  | i :: rest => do
    let l ← get_scored_mask_len (scoresLen i) targets
    let _ ← accStep numTargets l
    accLoop numTargets scoresLen targets rest

/-- RISE._reconstruct_sparce_saliency_map at shape level: np.zeros((num_classes,
H, W)) then row assignments sal_maps[target_classes[i]] = sal; numpy raises
IndexError when a target index is outside the class axis. -/
def reconstructShape (numClasses hh ww : Nat) (ts : List Nat) : Except XaiError (Nat × Nat × Nat) :=
  if (List.range ts.length).all (fun i => decide (ts.getD i 0 < numClasses)) then
    .ok (numClasses, hh, ww)
  else .error .indexError

/-- RISE._run_synchronous_explanation (lines 79-118) at shape level.
numClasses0 is the length discovered from the unmasked call (line 95);
scoresLen gives the lengths of the score vectors of the masked calls.  The
returned triple is the shape of the final sal_maps array. -/
def run_synchronous_explanation (numClasses0 : Nat) (scoresLen : Nat → Nat)
    (targets : Option (List Nat)) (numMasks hh ww : Nat) :
    Except XaiError (Nat × Nat × Nat) := do
  let numTargets := match targets with
    | none => numClasses0
    | some ts => ts.length
  let _ ← accLoop numTargets scoresLen targets (List.range numMasks)
  match targets with
  | none => .ok (numTargets, hh, ww)
  | some ts => reconstructShape numClasses0 hh ww ts

/-! ## RISE sparse reconstruction at value level (RISE._reconstruct_sparce_saliency_map) -/

/-- One assignment sal_maps[target_classes[i]] = sal of the reconstruction
loop, on tensors modelled as index functions (row, x, y) ↦ value. -/
def reconStep (tmp : Nat → Nat → Nat → ℚ) (ts : List Nat)
    (acc : Nat → Nat → Nat → ℚ) (i : Nat) : Nat → Nat → Nat → ℚ :=
  fun cn x y => if cn = ts.getD i 0 then tmp i x y else acc cn x y

/-- Value-level embedding of _reconstruct_sparce_saliency_map: the accumulated
tensor is an index function (target row, x, y) ↦ value with numTargets rows;
start from np.zeros((num_classes, H, W)) and assign row target_classes[i] :=
row i of the input, for i = 0 .. numTargets-1 in order. -/
def reconstruct_sparce_saliency_map (tmp : Nat → Nat → Nat → ℚ) (numTargets : Nat)
    (ts : List Nat) : Nat → Nat → Nat → ℚ :=
  (List.range numTargets).foldl (reconStep tmp ts) (fun _ _ _ => 0)

/-! ## RISE normalization (RISE._normalize_saliency_maps) -/

/-- The epsilon 1e-12 added to the denominator. -/
def eps : ℚ := 1 / 1000000000000

/-- np.min over a flattened map (numpy errors on an empty axis; the default 0
is never reached under the nonemptiness hypotheses of the theorems). -/
def rowMin : List ℚ → ℚ
  | [] => 0
  | x :: r => r.foldl min x

/-- np.max over a flattened map. -/
def rowMax : List ℚ → ℚ
  | [] => 0
  | x :: r => r.foldl max x

/-- astype(np.uint8) on a nonnegative float: truncate, then wrap to 8 bits. -/
def toUint8 (q : ℚ) : Nat := q.floor.toNat % 256

/-- The scaled value 255 * (x - min) / (max - min + 1e-12) of line 167, where
min and max are taken over the flattened map mp (the source reshapes (n, h, w)
to (n, h*w) and reduces along the last axis, i.e. per map). -/
def scaledVal (mp : List (List ℚ)) (x : ℚ) : ℚ :=
  255 * (x - rowMin mp.flatten) / (rowMax mp.flatten - rowMin mp.flatten + eps)

/-- Per-map normalization: scale every entry and cast to uint8; the (h, w)
layout of the map is preserved. -/
def normalizeMap (mp : List (List ℚ)) : List (List Nat) :=
  mp.map (fun row => row.map (fun x => toUint8 (scaledVal mp x)))

/-- RISE._normalize_saliency_maps (lines 161-169): each of the n maps is
min-max scaled independently and cast to uint8. -/
def normalize_saliency_maps (sm : List (List (List ℚ))) : List (List (List Nat)) :=
  sm.map normalizeMap

/-! ## RISE mask generation (RISE._generate_mask, lines 138-159) -/

/-- np.random.default_rng(seed) and its successors: a deterministic stream of
values in [0, 1) (the PCG64 output, external to the repository) together with a
cursor; every draw consumes stream values and advances the cursor. -/
structure RandGen where
  stream : Nat → ℚ
  idx : Nat

/-- np.random.default_rng(seed): a fresh generator at cursor 0 over the stream
the seed determines. -/
def default_rng (stream : Nat → ℚ) : RandGen := ⟨stream, 0⟩

/-- rand_generator.random(size) with n cells: the next n stream values, cursor
advanced by n. -/
def genRandom (g : RandGen) (n : Nat) : (Nat → ℚ) × RandGen :=
  (fun i => g.stream (g.idx + i), ⟨g.stream, g.idx + n⟩)

/-- A uniform integer in [0, high) derived from one stream value.  The concrete
mapping (here the numerator of the draw, reduced mod high) is irrelevant to the
claims; any deterministic map of (draw, high) with this range is a faithful
model of Generator.integers. -/
def intOfRand (q : ℚ) (high : Nat) : Nat := q.num.toNat % high

/-- rand_generator.integers(0, high): one draw, cursor advanced by 1. -/
def genIntegers (g : RandGen) (high : Nat) : Nat × RandGen :=
  (intOfRand (g.stream g.idx) high, ⟨g.stream, g.idx + 1⟩)

/-- np.ceil(dim / numCells) on exact arithmetic. -/
def cellSize (dim numCells : Nat) : Nat := (dim + numCells - 1) / numCells

/-- The Bernoulli grid (rand(N, N) < prob).astype(float32), as an index
function guarded to the N x N extent of the array. -/
def gridOf (numCells : Nat) (prob : ℚ) (vals : Nat → ℚ) : Nat → Nat → ℚ :=
  fun i j =>
    if i < numCells ∧ j < numCells then
      (if vals (i * numCells + j) < prob then 1 else 0)
    else 0

/-- cv2.resize(src, dsize): dsize is (width, height), so the output array has
dsize.2 rows and dsize.1 columns; the interpolated pixel values are supplied by
the abstract valf (INTER_CUBIC interpolation of the grid, external library). -/
def cv2_resize (valf : Nat → Nat → ℚ) (dsize : Nat × Nat) : List (List ℚ) :=
  (List.range dsize.2).map (fun i => (List.range dsize.1).map (fun j => valf i j))

/-- np.clip(v, 0, 1). -/
def npClip01 (q : ℚ) : ℚ := max 0 (min q 1)

/-- RISE._generate_mask: cell_size = ceil(input_size / num_cells), up_size =
(num_cells + 1) * cell_size, Bernoulli grid from the generator, random shifts
x < cell_size[0] and y < cell_size[1], upsample via cv2.resize(grid, up_size)
— note up_size is passed as dsize, i.e. (width, height) — crop
[x : x + H, y : y + W] (python slicing clamps at the array bounds) and clip to
[0, 1].  rv is the abstract interpolation kernel of cv2. -/
def generate_mask (rv : (Nat → Nat → ℚ) → Nat → Nat → ℚ) (hIn wIn numCells : Nat)
    (prob : ℚ) (g : RandGen) : List (List ℚ) × RandGen :=
  let cellH := cellSize hIn numCells
  let cellW := cellSize wIn numCells
  let upH := (numCells + 1) * cellH
  let upW := (numCells + 1) * cellW
  let r1 := genRandom g (numCells * numCells)
  let grid := gridOf numCells prob r1.1
  let r2 := genIntegers r1.2 cellH
  let r3 := genIntegers r2.2 cellW
  let upsampled := cv2_resize (rv grid) (upH, upW)
  let cropped := ((upsampled.drop r2.1).take hIn).map (fun row => (row.drop r3.1).take wIn)
  (cropped.map (fun row => row.map npClip01), r3.2)

/-- The sequence of masks a run draws: m consecutive _generate_mask calls
threading one generator, as the sampling loop of lines 105-106 does. -/
def masksFrom (rv : (Nat → Nat → ℚ) → Nat → Nat → ℚ) (hIn wIn numCells : Nat)
    (prob : ℚ) : RandGen → Nat → List (List (List ℚ)) × RandGen
  | g, 0 => ([], g)
  | g, m + 1 =>
    let r := generate_mask rv hIn wIn numCells prob g
    let rest := masksFrom rv hIn wIn numCells prob r.2 m
    (r.1 :: rest.1, rest.2)

/-! # Helper lemmas -/

theorem maskAssign_apply (w : Nat) (m : Nat → Nat → Nat → Nat → ℚ) (i j k ci i2 j2 : Nat) :
    maskAssign w m i j k ci i2 j2
      = if k = i * w + j ∧ i2 = i ∧ j2 = j then 1 else m k ci i2 j2 := rfl

theorem maskAssign_innerFold (w : Nat) (m : Nat → Nat → Nat → Nat → ℚ) (i : Nat) :
    ∀ n k ci i2 j2,
      ((List.range n).foldl (fun m2 j => maskAssign w m2 i j) m) k ci i2 j2
        = if i2 = i ∧ j2 < n ∧ k = i * w + j2 then 1 else m k ci i2 j2 := by
  intro n
  induction n with
  | zero =>
    intro k ci i2 j2
    simp
  | succ n ih =>
    intro k ci i2 j2
    rw [List.range_succ, List.foldl_append, List.foldl_cons, List.foldl_nil,
      maskAssign_apply, ih]
    by_cases h1 : k = i * w + n ∧ i2 = i ∧ j2 = n
    · rw [if_pos h1, if_pos ⟨h1.2.1, by omega, by rw [h1.2.2]; exact h1.1⟩]
    · rw [if_neg h1]
      by_cases h2 : i2 = i ∧ j2 < n ∧ k = i * w + j2
      · rw [if_pos h2, if_pos ⟨h2.1, Nat.lt_succ_of_lt h2.2.1, h2.2.2⟩]
      · by_cases h3 : i2 = i ∧ j2 < n + 1 ∧ k = i * w + j2
        · exfalso
          obtain ⟨hi2, hlt, hk⟩ := h3
          rcases Nat.lt_succ_iff_lt_or_eq.mp hlt with h | h
          · exact h2 ⟨hi2, h, hk⟩
          · exact h1 ⟨by rw [← h]; exact hk, hi2, h⟩
        · rw [if_neg h2, if_neg h3]

theorem mosaic_fold_char (h w : Nat) :
    ∀ n k ci i2 j2,
      ((List.range n).foldl
          (fun m i => (List.range w).foldl (fun m2 j => maskAssign w m2 i j) m)
          (fun _ _ _ _ => 0)) k ci i2 j2
        = if i2 < n ∧ j2 < w ∧ k = i2 * w + j2 then 1 else 0 := by
  intro n
  induction n with
  | zero =>
    intro k ci i2 j2
    simp
  | succ n ih =>
    intro k ci i2 j2
    rw [List.range_succ, List.foldl_append, List.foldl_cons, List.foldl_nil,
      maskAssign_innerFold, ih]
    by_cases h1 : i2 = n ∧ j2 < w ∧ k = n * w + j2
    · rw [if_pos h1, if_pos ⟨by omega, h1.2.1, by rw [h1.1]; exact h1.2.2⟩]
    · rw [if_neg h1]
      by_cases h2 : i2 < n ∧ j2 < w ∧ k = i2 * w + j2
      · rw [if_pos h2, if_pos ⟨Nat.lt_succ_of_lt h2.1, h2.2⟩]
      · by_cases h3 : i2 < n + 1 ∧ j2 < w ∧ k = i2 * w + j2
        · exfalso
          obtain ⟨hlt, hj2, hk⟩ := h3
          rcases Nat.lt_succ_iff_lt_or_eq.mp hlt with hc | hc
          · exact h2 ⟨hc, hj2, hk⟩
          · exact h1 ⟨hc, hj2, by rw [← hc]; exact hk⟩
        · rw [if_neg h2, if_neg h3]

/-! # Claim theorems -/

/-- Claim C1: in the Recipro-CAM synthesizer, the mosaic mask entry (k, ci, i, j)
is 1 exactly when k = i*W + j and 0 otherwise, and batch index k corresponds to
exactly one spatial position (i, j) with i*W + j = k — a bijection between the
H*W batch slices and the H x W spatial grid. -/
theorem reciprocam_mosaic_mask_spec (h w c k ci i j : Nat)
    (hk : k < h * w) (hci : ci < c) (hi : i < h) (hj : j < w) :
    (mosaic_feature_map_mask h w k ci i j = if k = i * w + j then 1 else 0)
    ∧ (∃! p : Nat × Nat, p.1 < h ∧ p.2 < w ∧ p.1 * w + p.2 = k) := by
  constructor
  · unfold mosaic_feature_map_mask
    rw [mosaic_fold_char h w h k ci i j]
    simp [hi, hj]
  · have hw : 0 < w := Nat.lt_of_le_of_lt (Nat.zero_le j) hj
    refine ⟨(k / w, k % w), ⟨(Nat.div_lt_iff_lt_mul hw).mpr hk, Nat.mod_lt _ hw,
      Nat.div_add_mod' k w⟩, ?_⟩
    rintro ⟨i2, j2⟩ ⟨hi2, hj2, hk2⟩
    have hdiv : i2 = k / w := by
      rw [← hk2, Nat.add_comm, Nat.add_mul_div_right _ _ hw, Nat.div_eq_of_lt hj2,
        Nat.zero_add]
    have hmod : j2 = k % w := by
      rw [← hk2, Nat.add_comm, Nat.add_mul_mod_self_right, Nat.mod_eq_of_lt hj2]
    simp [hdiv, hmod]

/-- Witness for C1 at h = 2, w = 3, c = 4, k = 5 = 1*3 + 2, channel 0, (i, j) = (1, 2). -/
theorem reciprocam_mosaic_mask_spec_witness :
    ((5 : Nat) < 2 * 3 ∧ (0 : Nat) < 4 ∧ (1 : Nat) < 2 ∧ (2 : Nat) < 3)
    ∧ ((mosaic_feature_map_mask 2 3 5 0 1 2 = if 5 = 1 * 3 + 2 then 1 else 0)
        ∧ (∃! p : Nat × Nat, p.1 < 2 ∧ p.2 < 3 ∧ p.1 * 3 + p.2 = 5)) :=
  ⟨⟨by decide, by decide, by decide, by decide⟩,
   reciprocam_mosaic_mask_spec 2 3 4 5 0 1 2 (by decide) (by decide) (by decide) (by decide)⟩

/-- Claim C8 counterexample: for a backbone feature map of shape (1, 64, 7, 7),
the Activation-Map branch output shape is (1, 7, 7) — rank 3, with no channel
dimension at all — because reduce_mean is called with the keep_dims default
False; the claimed 4-D contract shape (1, 1, H, W) does not hold. -/
theorem activation_map_channel_cex :
    activationMap_generate_xai_branch [1, 64, 7, 7] = [1, 7, 7]
    ∧ (activationMap_generate_xai_branch [1, 64, 7, 7]).length ≠ 4 := by
  exact ⟨rfl, by decide⟩

/-- Claim C8 amended: the Activation-Map branch output of a (N, C, H, W)
backbone feature map is the rank-3 shape (N, H, W): the channel axis is
eliminated rather than kept with size 1; per_class is False. -/
theorem activation_map_shape_amended (n c hh ww : Nat) :
    activationMap_generate_xai_branch [n, c, hh, ww] = [n, hh, ww]
    ∧ activationMap_per_class = false :=
  ⟨rfl, rfl⟩

theorem reconStep_apply (tmp : Nat → Nat → Nat → ℚ) (ts : List Nat)
    (acc : Nat → Nat → Nat → ℚ) (i cn x y : Nat) :
    reconStep tmp ts acc i cn x y
      = if cn = ts.getD i 0 then tmp i x y else acc cn x y := rfl

theorem recon_fold_hit (tmp : Nat → Nat → Nat → ℚ) (ts : List Nat) (hnd : ts.Nodup) :
    ∀ n, n ≤ ts.length → ∀ i, i < n → ∀ x y,
      ((List.range n).foldl (reconStep tmp ts) (fun _ _ _ => 0)) (ts.getD i 0) x y
        = tmp i x y := by
  intro n
  induction n with
  | zero =>
    intro _ i hi
    exact absurd hi (Nat.not_lt_zero i)
  | succ n ih =>
    intro hn i hi x y
    rw [List.range_succ, List.foldl_append, List.foldl_cons, List.foldl_nil,
      reconStep_apply]
    rcases Nat.lt_succ_iff_lt_or_eq.mp hi with hc | hc
    · have hi2 : i < ts.length := by omega
      have hn2 : n < ts.length := by omega
      have hne : ts.getD i 0 ≠ ts.getD n 0 := by
        rw [List.getD_eq_getElem ts 0 hi2, List.getD_eq_getElem ts 0 hn2]
        intro hEq
        have := (hnd.getElem_inj_iff).mp hEq
        omega
      rw [if_neg hne]
      exact ih (by omega) i hc x y
    · subst hc
      rw [if_pos rfl]

theorem recon_fold_miss (tmp : Nat → Nat → Nat → ℚ) (ts : List Nat) :
    ∀ n, n ≤ ts.length → ∀ cn, cn ∉ ts → ∀ x y,
      ((List.range n).foldl (reconStep tmp ts) (fun _ _ _ => 0)) cn x y = 0 := by
  intro n
  induction n with
  | zero =>
    intro _ cn _ x y
    simp
  | succ n ih =>
    intro hn cn hnotin x y
    rw [List.range_succ, List.foldl_append, List.foldl_cons, List.foldl_nil,
      reconStep_apply]
    have hmem : ts.getD n 0 ∈ ts := by
      have hn2 : n < ts.length := by omega
      rw [List.getD_eq_getElem ts 0 hn2]
      exact List.getElem_mem hn2
    have hne : cn ≠ ts.getD n 0 := fun hEq => hnotin (hEq ▸ hmem)
    rw [if_neg hne]
    exact ih (by omega) cn hnotin x y

/-- Claim C3: for a (numTargets, H, W) accumulated tensor, numClasses at least
numTargets and distinct valid target indices, the sparse reconstruction places
input row i at output row target_classes[i] and leaves every other row of the
(numClasses, H, W) result exactly zero. -/
theorem rise_sparse_reconstruction_spec (tmp : Nat → Nat → Nat → ℚ)
    (numClasses numTargets : Nat) (ts : List Nat)
    (hlen : numTargets = ts.length) (hnd : ts.Nodup)
    (hval : ∀ t ∈ ts, t < numClasses) :
    (∀ i (hi : i < ts.length) (x y : Nat),
        reconstruct_sparce_saliency_map tmp numTargets ts (ts.get ⟨i, hi⟩) x y
          = tmp i x y)
    ∧ (∀ cn, cn < numClasses → cn ∉ ts → ∀ x y,
        reconstruct_sparce_saliency_map tmp numTargets ts cn x y = 0) := by
  constructor
  · intro i hi x y
    have hfold := recon_fold_hit tmp ts hnd numTargets (le_of_eq hlen) i (by omega) x y
    rw [List.getD_eq_getElem ts 0 hi] at hfold
    rw [List.get_eq_getElem]
    exact hfold
  · intro cn _ hnotin x y
    exact recon_fold_miss tmp ts numTargets (le_of_eq hlen) cn hnotin x y

/-- Witness for C3 at target_classes = [2, 5], num_classes = 10, with the
constant input tensor 7: rows 2 and 5 of the result carry the input rows, and
every other row below 10 is zero. -/
theorem rise_sparse_reconstruction_spec_witness :
    ((2 : Nat) = [2, 5].length ∧ ([2, 5] : List Nat).Nodup ∧ ∀ t ∈ ([2, 5] : List Nat), t < 10)
    ∧ ((∀ i (hi : i < ([2, 5] : List Nat).length) (x y : Nat),
          reconstruct_sparce_saliency_map (fun _ _ _ => (7 : ℚ)) 2 [2, 5]
            (([2, 5] : List Nat).get ⟨i, hi⟩) x y = 7)
        ∧ (∀ cn, cn < 10 → cn ∉ ([2, 5] : List Nat) → ∀ x y,
            reconstruct_sparce_saliency_map (fun _ _ _ => (7 : ℚ)) 2 [2, 5] cn x y = 0)) :=
  ⟨⟨by decide, by decide, by decide⟩,
   rise_sparse_reconstruction_spec (fun _ _ _ => (7 : ℚ)) 10 2 [2, 5]
     (by decide) (by decide) (by decide)⟩

theorem foldl_min_le (l : List ℚ) :
    ∀ a : ℚ, l.foldl min a ≤ a ∧ ∀ x ∈ l, l.foldl min a ≤ x := by
  induction l with
  | nil =>
    intro a
    exact ⟨le_refl a, by simp⟩
  | cons b t ih =>
    intro a
    refine ⟨le_trans (ih (min a b)).1 (min_le_left a b), ?_⟩
    intro x hx
    rcases List.mem_cons.mp hx with h | h
    · rw [h]
      exact le_trans (ih (min a b)).1 (min_le_right a b)
    · exact (ih (min a b)).2 x h

theorem le_foldl_max (l : List ℚ) :
    ∀ a : ℚ, a ≤ l.foldl max a ∧ ∀ x ∈ l, x ≤ l.foldl max a := by
  induction l with
  | nil =>
    intro a
    exact ⟨le_refl a, by simp⟩
  | cons b t ih =>
    intro a
    refine ⟨le_trans (le_max_left a b) (ih (max a b)).1, ?_⟩
    intro x hx
    rcases List.mem_cons.mp hx with h | h
    · rw [h]
      exact le_trans (le_max_right a b) (ih (max a b)).1
    · exact (ih (max a b)).2 x h

theorem rowMin_le (xs : List ℚ) (x : ℚ) (hx : x ∈ xs) : rowMin xs ≤ x := by
  cases xs with
  | nil => cases hx
  | cons b t =>
    rcases List.mem_cons.mp hx with h | h
    · rw [h, rowMin]
      exact (foldl_min_le t b).1
    · rw [rowMin]
      exact (foldl_min_le t b).2 x h

theorem le_rowMax (xs : List ℚ) (x : ℚ) (hx : x ∈ xs) : x ≤ rowMax xs := by
  cases xs with
  | nil => cases hx
  | cons b t =>
    rcases List.mem_cons.mp hx with h | h
    · rw [h, rowMax]
      exact (le_foldl_max t b).1
    · rw [rowMax]
      exact (le_foldl_max t b).2 x h

theorem foldl_min_const (t : List ℚ) :
    ∀ a : ℚ, (∀ x ∈ t, x = a) → t.foldl min a = a := by
  induction t with
  | nil =>
    intro a _
    rfl
  | cons b r ih =>
    intro a hall
    have hb : b = a := hall b (List.mem_cons_self b r)
    rw [List.foldl_cons, hb, min_self]
    exact ih a (fun x hx => hall x (List.mem_cons_of_mem b hx))

theorem rowMin_const (xs : List ℚ) (c : ℚ) (hall : ∀ x ∈ xs, x = c) (hne : xs ≠ []) :
    rowMin xs = c := by
  cases xs with
  | nil => exact absurd rfl hne
  | cons b t =>
    have hb : b = c := hall b (List.mem_cons_self b t)
    rw [rowMin, hb]
    exact foldl_min_const t c (fun x hx => hall x (List.mem_cons_of_mem b hx))

theorem toUint8_le (q : ℚ) : toUint8 q ≤ 255 := by
  unfold toUint8
  omega

/-- Claim C4: the RISE normalization performs an independent per-map min-max
scale with epsilon 1e-12 in the denominator: the shape is preserved, every
scaled value lies in [0, 255) before the cast and every uint8 output is at
most 255, and a perfectly flat map yields the constant 0 map — no division by
zero can occur since the denominator is at least eps > 0. -/
theorem rise_normalize_spec (sm : List (List (List ℚ)))
    (hne : ∀ mp ∈ sm, mp.flatten ≠ []) :
    (normalize_saliency_maps sm).length = sm.length
    ∧ (∀ mp ∈ sm, (normalizeMap mp).length = mp.length
        ∧ ∀ row ∈ mp, (row.map (fun x => toUint8 (scaledVal mp x))).length = row.length)
    ∧ (∀ mp ∈ sm, ∀ row ∈ mp, ∀ x ∈ row,
        0 ≤ scaledVal mp x ∧ scaledVal mp x < 255)
    ∧ (∀ mpr ∈ normalize_saliency_maps sm, ∀ row ∈ mpr, ∀ v ∈ row, v ≤ 255)
    ∧ (∀ mp ∈ sm, (∀ x ∈ mp.flatten, ∀ y ∈ mp.flatten, x = y) →
        ∀ row ∈ normalizeMap mp, ∀ v ∈ row, v = 0) := by
  refine ⟨by simp [normalize_saliency_maps], by simp [normalizeMap], ?_, ?_, ?_⟩
  · intro mp hmp row hrow x hx
    have hxf : x ∈ mp.flatten := List.mem_flatten.mpr ⟨row, hrow, hx⟩
    have hlo := rowMin_le mp.flatten x hxf
    have hhi := le_rowMax mp.flatten x hxf
    have heps : (0 : ℚ) < eps := by norm_num [eps]
    have hden : 0 < rowMax mp.flatten - rowMin mp.flatten + eps := by linarith
    constructor
    · exact div_nonneg (by linarith) (le_of_lt hden)
    · rw [scaledVal, mul_div_assoc]
      have hq : (x - rowMin mp.flatten) / (rowMax mp.flatten - rowMin mp.flatten + eps) < 1 := by
        rw [div_lt_one hden]
        linarith
      have := mul_lt_mul_of_pos_left hq (show (0 : ℚ) < 255 by norm_num)
      linarith
  · intro mpr hmpr row hrow v hv
    obtain ⟨mp, _, rfl⟩ := List.mem_map.mp hmpr
    obtain ⟨r0, _, rfl⟩ := List.mem_map.mp hrow
    obtain ⟨x, _, rfl⟩ := List.mem_map.mp hv
    exact toUint8_le (scaledVal mp x)
  · intro mp hmp hflat row hrow v hv
    obtain ⟨r0, hr0, rfl⟩ := List.mem_map.mp hrow
    obtain ⟨x, hx, rfl⟩ := List.mem_map.mp hv
    have hxf : x ∈ mp.flatten := List.mem_flatten.mpr ⟨r0, hr0, hx⟩
    have hlo : rowMin mp.flatten = x :=
      rowMin_const mp.flatten x (fun z hz => hflat z hz x hxf) (hne mp hmp)
    show toUint8 (scaledVal mp x) = 0
    rw [scaledVal, hlo, sub_self, mul_zero, zero_div]
    rfl

/-- Witness for C4 at the two-map input [[[0, 2], [1, 1]], [[5, 5]]] (the
second map is perfectly flat). -/
theorem rise_normalize_spec_witness :
    (∀ mp ∈ ([[[0, 2], [1, 1]], [[5, 5]]] : List (List (List ℚ))), mp.flatten ≠ [])
    ∧ ((normalize_saliency_maps [[[0, 2], [1, 1]], [[5, 5]]]).length
          = ([[[0, 2], [1, 1]], [[5, 5]]] : List (List (List ℚ))).length
        ∧ (∀ mp ∈ ([[[0, 2], [1, 1]], [[5, 5]]] : List (List (List ℚ))),
            (normalizeMap mp).length = mp.length
            ∧ ∀ row ∈ mp, (row.map (fun x => toUint8 (scaledVal mp x))).length = row.length)
        ∧ (∀ mp ∈ ([[[0, 2], [1, 1]], [[5, 5]]] : List (List (List ℚ))), ∀ row ∈ mp, ∀ x ∈ row,
            0 ≤ scaledVal mp x ∧ scaledVal mp x < 255)
        ∧ (∀ mpr ∈ normalize_saliency_maps [[[0, 2], [1, 1]], [[5, 5]]],
            ∀ row ∈ mpr, ∀ v ∈ row, v ≤ 255)
        ∧ (∀ mp ∈ ([[[0, 2], [1, 1]], [[5, 5]]] : List (List (List ℚ))),
            (∀ x ∈ mp.flatten, ∀ y ∈ mp.flatten, x = y) →
            ∀ row ∈ normalizeMap mp, ∀ v ∈ row, v = 0)) :=
  ⟨by decide, rise_normalize_spec [[[0, 2], [1, 1]], [[5, 5]]] (by decide)⟩

theorem collect_map_name (ops : List OVNode) (names : List String) :
    (collectClsHeadNodes ops names).map OVNode.friendly_name
      = (ops.map OVNode.friendly_name).filter (fun nm => decide (nm ∈ names)) := by
  induction ops with
  | nil => rfl
  | cons op rest ih =>
    simp only [collectClsHeadNodes, List.map_cons, List.filter_cons] at ih ⊢
    by_cases h : op.friendly_name ∈ names
    · simp [h, ih]
    · simp [h, ih]

/-- Claim C7 counterexample: for a graph whose ordered ops are named a then b,
asking for scales ["b", "a"] yields the pipeline order [a, b] — position 0 of
the pipeline is NOT the node named by position 0 of the given list.  The claim
that the caller-given order is preserved regardless of graph order is false. -/
theorem det_scale_order_cex :
    (collectClsHeadNodes [⟨"a", [1, 4, 2, 2]⟩, ⟨"b", [1, 4, 2, 2]⟩] ["b", "a"]).map
        OVNode.friendly_name = ["a", "b"]
    ∧ (collectClsHeadNodes [⟨"a", [1, 4, 2, 2]⟩, ⟨"b", [1, 4, 2, 2]⟩] ["b", "a"]).map
        OVNode.friendly_name ≠ ["b", "a"] :=
  ⟨rfl, by decide⟩

/-- Claim C7 amended: the Detection synthesizer processes scales in the order
the nodes appear in get_ordered_ops(); position s of the pipeline is the node
named cls_head_output_node_names[s] exactly when the matched names, read off in
graph order, coincide with the given list. -/
theorem det_scale_order_amended (ops : List OVNode) (names : List String)
    (horder : (ops.map OVNode.friendly_name).filter (fun nm => decide (nm ∈ names)) = names) :
    (collectClsHeadNodes ops names).map OVNode.friendly_name = names := by
  rw [collect_map_name ops names, horder]

/-- Witness for the amended C7 on a graph whose ordered ops match the given
list order. -/
theorem det_scale_order_amended_witness :
    ((([⟨"a", [1, 4, 2, 2]⟩, ⟨"b", [1, 4, 2, 2]⟩] : List OVNode).map
          OVNode.friendly_name).filter (fun nm => decide (nm ∈ ["a", "b"])) = ["a", "b"])
    ∧ (collectClsHeadNodes [⟨"a", [1, 4, 2, 2]⟩, ⟨"b", [1, 4, 2, 2]⟩] ["a", "b"]).map
        OVNode.friendly_name = ["a", "b"] :=
  ⟨by decide, det_scale_order_amended _ _ (by decide)⟩

theorem exbind_ok {α β : Type} (a : α) (f : α → Except XaiError β) :
    (Except.ok a : Except XaiError α) >>= f = f a := rfl

theorem exbind_error {α β : Type} (e : XaiError) (f : α → Except XaiError β) :
    (Except.error e : Except XaiError α) >>= f = Except.error e := rfl

theorem getLastD_eq_getLast {α : Type} (l : List α) (d : α) (h : l ≠ []) :
    l.getLastD d = l.getLast h := by
  rw [List.getLastD_eq_getLast?, List.getLast?_eq_getLast l h, Option.getD_some]

theorem getLastD_mem {α : Type} (l : List α) (d : α) (h : l ≠ []) : l.getLastD d ∈ l := by
  rw [getLastD_eq_getLast l d h]
  exact List.getLast_mem h

theorem getLastE_ok {α : Type} (l : List α) (d : α) (h : l ≠ []) :
    getLastE l = .ok (l.getLastD d) := by
  unfold getLastE
  rw [List.getLast?_eq_getLast l h, getLastD_eq_getLast l d h]

theorem softmaxAll_ok (shapes : List (List Nat)) (hall : ∀ s ∈ shapes, 2 ≤ s.length) :
    softmaxAll shapes = .ok shapes := by
  induction shapes with
  | nil => rfl
  | cons s rest ih =>
    have hs : 2 ≤ s.length := hall s (List.mem_cons_self _ _)
    have hrest := ih (fun t ht => hall t (List.mem_cons_of_mem _ ht))
    simp only [softmaxAll, softmaxShape, if_pos hs, hrest, exbind_ok]

theorem processScaleShape_char (K a sh sw ch hh ww : Nat) (hh0 : 0 < hh) (hw0 : 0 < ww) :
    processScaleShape K a sh sw [1, ch, hh, ww]
      = if ch = a * K then .ok [1, K, sh, sw] else .error .reshapeMismatch := by
  have e1 : shapeNumel [1, ch, hh, ww] = ch * hh * ww := by
    simp [shapeNumel, List.foldl]
  have e2 : shapeNumel [1, a, K, hh, ww] = a * K * hh * ww := by
    simp [shapeNumel, List.foldl]
  by_cases hEq : ch = a * K
  · rw [if_pos hEq]
    have heq2 : shapeNumel [1, ch, hh, ww] = shapeNumel [1, a, K, hh, ww] := by
      rw [e1, e2, hEq]
    simp only [processScaleShape, reshapeTo, if_pos heq2, exbind_ok]
  · rw [if_neg hEq]
    have hne2 : shapeNumel [1, ch, hh, ww] ≠ shapeNumel [1, a, K, hh, ww] := by
      rw [e1, e2]
      intro hcontra
      exact hEq (Nat.eq_of_mul_eq_mul_right hh0 (Nat.eq_of_mul_eq_mul_right hw0 hcontra))
    simp only [processScaleShape, reshapeTo, if_neg hne2, exbind_error]

theorem anchorLoop_char (K sh sw : Nat) :
    ∀ (shapes : List (List Nat)) (anchors : List Nat),
      (∀ s ∈ shapes, ∃ ch hh ww, s = [1, ch, hh, ww] ∧ 0 < hh ∧ 0 < ww) →
      anchors.length = shapes.length →
      (anchorLoop K sh sw shapes anchors = .error .reshapeMismatch)
      ∨ ((∀ p ∈ shapes.zip anchors, chanDim p.1 = p.2 * K)
          ∧ anchorLoop K sh sw shapes anchors
              = .ok (shapes.map (fun _ => [1, K, sh, sw]))) := by
  intro shapes
  induction shapes with
  | nil =>
    intro anchors _ hlen
    right
    refine ⟨by simp, ?_⟩
    have ha : anchors = [] := List.length_eq_zero.mp (by simpa using hlen)
    subst ha
    rfl
  | cons s rest ih =>
    intro anchors hwf hlen
    cases anchors with
    | nil => simp at hlen
    | cons a arest =>
      obtain ⟨ch, hh, ww, hs, hh0, hw0⟩ := hwf s (List.mem_cons_self _ _)
      subst hs
      by_cases hEq : ch = a * K
      · rcases ih arest (fun t ht => hwf t (List.mem_cons_of_mem _ ht))
            (by simpa using hlen) with herr | ⟨hall, hok⟩
        · left
          rw [anchorLoop, processScaleShape_char K a sh sw ch hh ww hh0 hw0, if_pos hEq,
            exbind_ok, herr, exbind_error]
        · right
          constructor
          · intro p hp
            rw [List.zip_cons_cons] at hp
            rcases List.mem_cons.mp hp with hc | hc
            · rw [hc]
              simpa [chanDim] using hEq
            · exact hall p hc
          · rw [anchorLoop, processScaleShape_char K a sh sw ch hh ww hh0 hw0, if_pos hEq,
              exbind_ok, hok, exbind_ok, List.map_cons]
      · left
        rw [anchorLoop, processScaleShape_char K a sh sw ch hh ww hh0 hw0, if_neg hEq,
          exbind_error]

theorem detPipeline_reshape_error (nodes : List OVNode) (anchors : List Nat) (sh sw : Nat)
    (hne : nodes ≠ [])
    (hlen : anchors.length = nodes.length)
    (hwf : ∀ nd ∈ nodes, ∃ ch hh ww, nd.out_shape = [1, ch, hh, ww] ∧ 0 < hh ∧ 0 < ww)
    (hpos : ∀ a ∈ anchors, 0 < a)
    (hinc : ∃ p ∈ nodes.zip anchors,
        chanDim p.1.out_shape / p.2
          ≠ chanDim (nodes.getLastD ⟨"", []⟩).out_shape / anchors.getLastD 0) :
    (do
      let shapes ← softmaxAll (nodes.map OVNode.out_shape)
      let lastShape ← getLastE shapes
      let ch ← unpackChannels lastShape
      let aLast ← getLastE anchors
      let K ← intDiv ch aLast
      let reduced ← anchorLoop K sh sw shapes anchors
      let cat ← concatShape0 reduced
      (.ok (reduceAxisShape cat 0 true) : Except XaiError (List Nat)))
      = .error .reshapeMismatch := by
  have hshne : nodes.map OVNode.out_shape ≠ [] := by
    simpa using hne
  have hswf : ∀ s ∈ nodes.map OVNode.out_shape,
      ∃ ch hh ww, s = [1, ch, hh, ww] ∧ 0 < hh ∧ 0 < ww := by
    intro s hs
    obtain ⟨nd, hnd, rfl⟩ := List.mem_map.mp hs
    exact hwf nd hnd
  have hlens : ∀ s ∈ nodes.map OVNode.out_shape, 2 ≤ s.length := by
    intro s hs
    obtain ⟨ch, hh, ww, hseq, _, _⟩ := hswf s hs
    rw [hseq]
    simp
  have hane : anchors ≠ [] := by
    intro hcontra
    rw [hcontra] at hlen
    exact hne (List.length_eq_zero.mp hlen.symm)
  have hlastmem : nodes.getLastD ⟨"", []⟩ ∈ nodes := getLastD_mem nodes _ hne
  obtain ⟨chl, hhl, wwl, hlast, _, _⟩ := hwf _ hlastmem
  have haLmem : anchors.getLastD 0 ∈ anchors := getLastD_mem anchors 0 hane
  have haL : 0 < anchors.getLastD 0 := hpos _ haLmem
  have hlastshape : (nodes.map OVNode.out_shape).getLastD []
      = (nodes.getLastD ⟨"", []⟩).out_shape := by
    rw [List.getLastD_eq_getLast?, List.getLast?_map, List.getLastD_eq_getLast?]
    cases nodes.getLast? <;> rfl
  have hK : intDiv chl (anchors.getLastD 0) = .ok (chl / anchors.getLastD 0) := by
    unfold intDiv
    rw [if_neg (Nat.pos_iff_ne_zero.mp haL)]
  rcases anchorLoop_char (chl / anchors.getLastD 0) sh sw (nodes.map OVNode.out_shape)
      anchors hswf (by simpa using hlen) with herr | ⟨hall, _⟩
  · rw [softmaxAll_ok _ hlens]
    simp only [exbind_ok]
    rw [getLastE_ok (nodes.map OVNode.out_shape) [] hshne]
    simp only [exbind_ok]
    rw [hlastshape, hlast]
    rw [show unpackChannels [1, chl, hhl, wwl] = Except.ok chl from rfl]
    simp only [exbind_ok]
    rw [getLastE_ok anchors 0 hane]
    simp only [exbind_ok]
    rw [hK]
    simp only [exbind_ok]
    rw [herr]
    simp only [exbind_error]
  · exfalso
    obtain ⟨p, hp, hneq⟩ := hinc
    have hp2 : (p.1.out_shape, p.2) ∈ (nodes.map OVNode.out_shape).zip anchors := by
      rw [List.zip_map_left]
      exact List.mem_map_of_mem _ hp
    have h1 : chanDim p.1.out_shape = p.2 * (chl / anchors.getLastD 0) := hall _ hp2
    have hp2pos : 0 < p.2 := hpos _ (List.of_mem_zip hp).2
    have h2 : chanDim p.1.out_shape / p.2 = chl / anchors.getLastD 0 := by
      rw [h1]
      exact Nat.mul_div_cancel_left _ hp2pos
    have h3 : chanDim (nodes.getLastD ⟨"", []⟩).out_shape = chl := by
      rw [hlast]
      rfl
    exact hneq (by rw [h2, h3])

/-- Claim C2 counterexample: two scales of shape (1, 12, 2, 2) with anchor
counts [4, 3] have implied class counts 12/4 = 3 and 12/3 = 4, which disagree;
generate_xai_branch fails, but with the reshape element-count validation error
— the code contains no InconsistentClassCount check, so it cannot fail with
that error. -/
theorem det_inconsistent_class_count_cex :
    ((12 : Nat) / 4 ≠ (12 : Nat) / 3)
    ∧ det_generate_xai_branch [⟨"s0", [1, 12, 2, 2]⟩, ⟨"s1", [1, 12, 2, 2]⟩]
        ["s0", "s1"] [4, 3] 13 13 = .error .reshapeMismatch
    ∧ det_generate_xai_branch [⟨"s0", [1, 12, 2, 2]⟩, ⟨"s1", [1, 12, 2, 2]⟩]
        ["s0", "s1"] [4, 3] 13 13 ≠ .error .inconsistentClassCount := by
  refine ⟨by decide, by rfl, ?_⟩
  intro hcontra
  rw [show det_generate_xai_branch [⟨"s0", [1, 12, 2, 2]⟩, ⟨"s1", [1, 12, 2, 2]⟩]
      ["s0", "s1"] [4, 3] 13 13 = .error .reshapeMismatch from rfl] at hcontra
  cases hcontra

/-- Claim C2 amended: when the per-scale implied class counts (channels_s
divided by anchors_s) are not all equal to the last scale's, the Detection
synthesizer fails — via the reshape element-count validation of the offending
scale, not via any InconsistentClassCount error — so it never silently builds
a branch from the last scale's class count in the inconsistent case. -/
theorem det_inconsistent_class_count_amended (ops : List OVNode) (names : List String)
    (anchors : List Nat) (sh sw : Nat)
    (hne : collectClsHeadNodes ops names ≠ [])
    (hlen : anchors.length = (collectClsHeadNodes ops names).length)
    (hwf : ∀ nd ∈ collectClsHeadNodes ops names,
        ∃ ch hh ww, nd.out_shape = [1, ch, hh, ww] ∧ 0 < hh ∧ 0 < ww)
    (hpos : ∀ a ∈ anchors, 0 < a)
    (hinc : ∃ p ∈ (collectClsHeadNodes ops names).zip anchors,
        chanDim p.1.out_shape / p.2
          ≠ chanDim ((collectClsHeadNodes ops names).getLastD ⟨"", []⟩).out_shape
              / anchors.getLastD 0) :
    det_generate_xai_branch ops names anchors sh sw = .error .reshapeMismatch := by
  have hpipe := detPipeline_reshape_error (collectClsHeadNodes ops names) anchors sh sw
    hne hlen hwf hpos hinc
  exact hpipe

/-- Witness for the amended C2 at the concrete inconsistent two-scale input of the counterexample. -/
theorem det_inconsistent_class_count_amended_witness :
    det_generate_xai_branch [⟨"s0", [1, 12, 2, 2]⟩, ⟨"s1", [1, 12, 2, 2]⟩]
      ["s0", "s1"] [4, 3] 13 13 = .error .reshapeMismatch :=
  det_inconsistent_class_count_amended
    [⟨"s0", [1, 12, 2, 2]⟩, ⟨"s1", [1, 12, 2, 2]⟩] ["s0", "s1"] [4, 3] 13 13
    (by decide)
    (by decide)
    (by
      intro nd hnd
      have hcases : nd = ⟨"s0", [1, 12, 2, 2]⟩ ∨ nd = ⟨"s1", [1, 12, 2, 2]⟩ := by
        have : nd ∈ [(⟨"s0", [1, 12, 2, 2]⟩ : OVNode), ⟨"s1", [1, 12, 2, 2]⟩] := hnd
        simpa using this
      rcases hcases with h | h <;> rw [h] <;> exact ⟨12, 2, 2, rfl, by decide, by decide⟩)
    (by decide)
    (by
      refine ⟨(⟨"s0", [1, 12, 2, 2]⟩, 4), by decide, by decide⟩)

theorem accLoop_none_char (numTargets : Nat) (scoresLen : Nat → Nat) :
    ∀ L : List Nat,
      accLoop numTargets scoresLen none L
        = if ∀ i ∈ L, scoresLen i = numTargets ∨ scoresLen i = 1 then .ok ()
          else .error .broadcastError := by
  intro L
  induction L with
  | nil => simp [accLoop]
  | cons i rest ih =>
    rw [accLoop,
      show get_scored_mask_len (scoresLen i) none = Except.ok (scoresLen i) from rfl,
      exbind_ok]
    by_cases hc : scoresLen i = numTargets ∨ scoresLen i = 1
    · rw [show accStep numTargets (scoresLen i) = Except.ok () from by
        unfold accStep; rw [if_pos hc], exbind_ok, ih]
      by_cases hrest : ∀ j ∈ rest, scoresLen j = numTargets ∨ scoresLen j = 1
      · rw [if_pos hrest, if_pos (by
          intro j hj
          rcases List.mem_cons.mp hj with h | h
          · rw [h]; exact hc
          · exact hrest j h)]
      · rw [if_neg hrest,
          if_neg (fun hall => hrest (fun j hj => hall j (List.mem_cons_of_mem _ hj)))]
    · rw [show accStep numTargets (scoresLen i) = Except.error .broadcastError from by
        unfold accStep; rw [if_neg hc], exbind_error,
        if_neg (fun hall => hc (hall i (List.mem_cons_self _ _)))]

/-- Claim C9 counterexample: a run in which the masked-iteration score vector
has length 1 while the discovery call found 2 classes does NOT fail — the
(1, H, W) contribution broadcasts silently into the (2, H, W) accumulator and
the run returns a saliency tensor.  No InconsistentOutputShape check exists. -/
theorem rise_output_shape_cex :
    (1 : Nat) ≠ 2
    ∧ run_synchronous_explanation 2 (fun _ => 1) none 1 4 4 = .ok (2, 4, 4) :=
  ⟨by decide, by rfl⟩

/-- Claim C9 amended: with target_classes = None, the synchronous RISE run
returns the (num_classes, H, W) accumulator exactly when every masked iteration returns a score vector whose length is num_classes or 1 (the latter
broadcasting silently); any other length mismatch aborts with the numpy
broadcast error of `sal_maps += sal`, not with an InconsistentOutputShape
error, which the code never raises. -/
theorem rise_output_shape_amended (numClasses0 : Nat) (scoresLen : Nat → Nat)
    (numMasks hh ww : Nat) :
    run_synchronous_explanation numClasses0 scoresLen none numMasks hh ww
      = if ∀ i < numMasks, scoresLen i = numClasses0 ∨ scoresLen i = 1
        then .ok (numClasses0, hh, ww)
        else .error .broadcastError := by
  simp only [run_synchronous_explanation]
  rw [accLoop_none_char]
  by_cases hcond : ∀ i ∈ List.range numMasks, scoresLen i = numClasses0 ∨ scoresLen i = 1
  · rw [if_pos hcond, exbind_ok,
      if_pos (fun i hi => hcond i (List.mem_range.mpr hi))]
  · rw [if_neg hcond, exbind_error,
      if_neg (fun hball => hcond (fun i hi => hball i (List.mem_range.mp hi)))]

theorem accLoop_emptyTargets_char (n0 : Nat) :
    ∀ L : List Nat,
      accLoop 0 (fun _ => n0) (some []) L
        = if n0 ≤ 1 ∨ L = [] then .ok () else .error .broadcastError := by
  intro L
  induction L with
  | nil => simp [accLoop]
  | cons i rest ih =>
    rw [accLoop,
      show get_scored_mask_len ((fun _ => n0) i) (some []) = Except.ok n0 from rfl,
      exbind_ok]
    by_cases hc : n0 ≤ 1
    · rw [show accStep 0 n0 = Except.ok () from by
        unfold accStep; rw [if_pos (by omega)], exbind_ok, ih,
        if_pos (Or.inl hc), if_pos (Or.inl hc)]
    · rw [show accStep 0 n0 = Except.error .broadcastError from by
        unfold accStep; rw [if_neg (by omega)], exbind_error,
        if_neg (by
          intro hcontra
          rcases hcontra with h | h
          · exact hc h
          · cases h)]

/-- Claim C10 counterexample: with an empty target list, one mask and a model
whose score vector has length 1 (at least one class), the run does NOT raise:
the (1, H, W) contribution broadcasts into the (0, H, W) accumulator, the
sparse reconstruction over zero rows returns the zero (1, H, W) tensor, and the
run returns it. -/
theorem rise_empty_targets_cex :
    ((1 : Nat) ≥ 1 ∧ (1 : Nat) ≥ 1)
    ∧ run_synchronous_explanation 1 (fun _ => 1) (some []) 1 4 4 = .ok (1, 4, 4) :=
  ⟨⟨by decide, by decide⟩, by rfl⟩

/-- Claim C10 amended: with target_explain_indices = [] the accumulator has
shape (0, H, W) and each contribution has shape (num_classes, H, W); the run
aborts with the numpy broadcast error exactly when num_classes is at least 2
(and at least one mask is drawn); when num_classes = 1 the contribution
broadcasts into the empty accumulator and the run returns a (num_classes, H, W)
all-zero result instead of raising. -/
theorem rise_empty_targets_amended (n0 m hh ww : Nat) :
    run_synchronous_explanation n0 (fun _ => n0) (some []) m hh ww
      = if n0 ≤ 1 ∨ m = 0 then .ok (n0, hh, ww) else .error .broadcastError := by
  simp only [run_synchronous_explanation, List.length_nil]
  rw [accLoop_emptyTargets_char]
  by_cases hc : n0 ≤ 1 ∨ m = 0
  · have hcL : n0 ≤ 1 ∨ List.range m = [] := by
      rcases hc with h | h
      · exact Or.inl h
      · exact Or.inr (by rw [h]; rfl)
    rw [if_pos hcL, exbind_ok, if_pos hc]
    rfl
  · have hcL : ¬(n0 ≤ 1 ∨ List.range m = []) := by
      intro hcontra
      rcases hcontra with h | h
      · exact hc (Or.inl h)
      · exact hc (Or.inr (List.range_eq_nil.mp h))
    rw [if_neg hcL, exbind_error, if_neg hc]

theorem cell_index_lt (a b numCells : Nat) (ha : a < numCells) (hb : b < numCells) :
    a * numCells + b < numCells * numCells := by
  calc a * numCells + b < a * numCells + numCells := by omega
    _ = (a + 1) * numCells := by ring
    _ ≤ numCells * numCells := Nat.mul_le_mul_right numCells (Nat.succ_le_of_lt ha)

theorem gridOf_congr (numCells : Nat) (prob : ℚ) (v1 v2 : Nat → ℚ)
    (hag : ∀ t < numCells * numCells, v1 t = v2 t) :
    gridOf numCells prob v1 = gridOf numCells prob v2 := by
  funext a b
  unfold gridOf
  by_cases hab : a < numCells ∧ b < numCells
  · rw [if_pos hab, if_pos hab, hag (a * numCells + b) (cell_index_lt a b numCells hab.1 hab.2)]
  · rw [if_neg hab, if_neg hab]

theorem generate_mask_gen (rv : (Nat → Nat → ℚ) → Nat → Nat → ℚ)
    (hIn wIn numCells : Nat) (prob : ℚ) (g : RandGen) :
    (generate_mask rv hIn wIn numCells prob g).2
      = ⟨g.stream, g.idx + (numCells * numCells + 2)⟩ := by
  show RandGen.mk g.stream (g.idx + numCells * numCells + 1 + 1)
      = ⟨g.stream, g.idx + (numCells * numCells + 2)⟩
  rw [show g.idx + numCells * numCells + 1 + 1
      = g.idx + (numCells * numCells + 2) from by omega]

theorem generate_mask_congr (rv : (Nat → Nat → ℚ) → Nat → Nat → ℚ)
    (hIn wIn numCells : Nat) (prob : ℚ) (s1 s2 : Nat → ℚ) (i : Nat)
    (hag : ∀ k < numCells * numCells + 2, s1 (i + k) = s2 (i + k)) :
    (generate_mask rv hIn wIn numCells prob ⟨s1, i⟩).1
      = (generate_mask rv hIn wIn numCells prob ⟨s2, i⟩).1 := by
  have hgrid : gridOf numCells prob (fun t => s1 (i + t))
      = gridOf numCells prob (fun t => s2 (i + t)) :=
    gridOf_congr numCells prob _ _ (fun t ht => hag t (by omega))
  have hx : s1 (i + numCells * numCells) = s2 (i + numCells * numCells) :=
    hag (numCells * numCells) (by omega)
  have hy : s1 (i + numCells * numCells + 1) = s2 (i + numCells * numCells + 1) := by
    have h := hag (numCells * numCells + 1) (by omega)
    rwa [← Nat.add_assoc] at h
  simp only [generate_mask, genRandom, genIntegers]
  rw [hgrid, hx, hy]

theorem masksFrom_gen (rv : (Nat → Nat → ℚ) → Nat → Nat → ℚ)
    (hIn wIn numCells : Nat) (prob : ℚ) :
    ∀ (m : Nat) (g : RandGen),
      (masksFrom rv hIn wIn numCells prob g m).2
        = ⟨g.stream, g.idx + m * (numCells * numCells + 2)⟩ := by
  intro m
  induction m with
  | zero =>
    intro g
    cases g with
    | mk s i => simp [masksFrom]
  | succ m ih =>
    intro g
    simp only [masksFrom]
    rw [generate_mask_gen, ih]
    dsimp only
    have h : (m + 1) * (numCells * numCells + 2)
        = m * (numCells * numCells + 2) + (numCells * numCells + 2) := by ring
    congr 1
    omega

theorem masksFrom_congr (rv : (Nat → Nat → ℚ) → Nat → Nat → ℚ)
    (hIn wIn numCells : Nat) (prob : ℚ) (s1 s2 : Nat → ℚ) :
    ∀ (m i : Nat), (∀ k < m * (numCells * numCells + 2), s1 (i + k) = s2 (i + k)) →
      (masksFrom rv hIn wIn numCells prob ⟨s1, i⟩ m).1
        = (masksFrom rv hIn wIn numCells prob ⟨s2, i⟩ m).1 := by
  intro m
  induction m with
  | zero =>
    intro i _
    rfl
  | succ m ih =>
    intro i hag
    have hle : numCells * numCells + 2 ≤ (m + 1) * (numCells * numCells + 2) :=
      Nat.le_mul_of_pos_left _ (by omega)
    have h1 : (generate_mask rv hIn wIn numCells prob ⟨s1, i⟩).1
        = (generate_mask rv hIn wIn numCells prob ⟨s2, i⟩).1 :=
      generate_mask_congr rv hIn wIn numCells prob s1 s2 i
        (fun k hk => hag k (lt_of_lt_of_le hk hle))
    have h2 : (masksFrom rv hIn wIn numCells prob ⟨s1, i + (numCells * numCells + 2)⟩ m).1
        = (masksFrom rv hIn wIn numCells prob ⟨s2, i + (numCells * numCells + 2)⟩ m).1 := by
      apply ih
      intro k hk
      rw [Nat.add_assoc]
      apply hag
      have h : (m + 1) * (numCells * numCells + 2)
          = m * (numCells * numCells + 2) + (numCells * numCells + 2) := by ring
      omega
    simp only [masksFrom]
    rw [generate_mask_gen, generate_mask_gen, h1, h2]

/-- Claim C5: the seeded generator is the sole source of randomness of RISE
mask generation — two streams that agree on the consumed prefix produce
bit-identical mask sequences — and each _generate_mask call advances the
generator cursor by exactly num_cells^2 + 2 draws, so a fresh fixed-seed
generator makes the sequence of m masks reproducible. -/
theorem rise_mask_determinism_spec (rv : (Nat → Nat → ℚ) → Nat → Nat → ℚ)
    (hIn wIn numCells : Nat) (prob : ℚ) (s1 s2 : Nat → ℚ) (m : Nat)
    (hagree : ∀ k < m * (numCells * numCells + 2), s1 k = s2 k) :
    (masksFrom rv hIn wIn numCells prob (default_rng s1) m).1
        = (masksFrom rv hIn wIn numCells prob (default_rng s2) m).1
    ∧ (masksFrom rv hIn wIn numCells prob (default_rng s1) m).2.idx
        = m * (numCells * numCells + 2)
    ∧ ∀ g : RandGen, (generate_mask rv hIn wIn numCells prob g).2.idx
        = g.idx + (numCells * numCells + 2) := by
  refine ⟨?_, ?_, ?_⟩
  · exact masksFrom_congr rv hIn wIn numCells prob s1 s2 m 0 (fun k hk => by
      have e : (0 : Nat) + k = k := by omega
      rw [e]
      exact hagree k hk)
  · rw [show default_rng s1 = (⟨s1, 0⟩ : RandGen) from rfl, masksFrom_gen]
    simp
  · intro g
    rw [generate_mask_gen]

/-- Witness for C5 with two streams that differ beyond the consumed window:
one mask drawn with num_cells = 1 consumes 1*1 + 2 = 3 values. -/
theorem rise_mask_determinism_spec_witness :
    (∀ k < 1 * (1 * 1 + 2), (fun _ => (0 : ℚ)) k = (fun j => if j < 5 then (0 : ℚ) else 1) k)
    ∧ ((masksFrom (fun _ _ _ => (0 : ℚ)) 1 1 1 (1 / 2) (default_rng (fun _ => (0 : ℚ))) 1).1
          = (masksFrom (fun _ _ _ => (0 : ℚ)) 1 1 1 (1 / 2)
              (default_rng (fun j => if j < 5 then (0 : ℚ) else 1)) 1).1
        ∧ (masksFrom (fun _ _ _ => (0 : ℚ)) 1 1 1 (1 / 2)
              (default_rng (fun _ => (0 : ℚ))) 1).2.idx = 1 * (1 * 1 + 2)
        ∧ ∀ g : RandGen, (generate_mask (fun _ _ _ => (0 : ℚ)) 1 1 1 (1 / 2) g).2.idx
            = g.idx + (1 * 1 + 2)) :=
  ⟨by decide,
   rise_mask_determinism_spec (fun _ _ _ => (0 : ℚ)) 1 1 1 (1 / 2)
     (fun _ => (0 : ℚ)) (fun j => if j < 5 then (0 : ℚ) else 1) 1 (by decide)⟩

/-- Claim C6, code bug: for the non-square input_size (100, 50) with num_cells
= 8, the mask has only 63 rows, not the 100 the contract (and the docstring
"mask ... with size of model input") requires: cv2.resize receives up_size as
dsize = (width, height), so the upsampled array is transposed — it has
(8+1)*ceil(50/8) = 63 rows — and the row crop [x : x+100] silently clamps. -/
theorem rise_generate_mask_shape_bug :
    ((generate_mask (fun _ _ _ => (0 : ℚ)) 100 50 8 (1 / 2)
        (default_rng (fun _ => 0))).1).length = 63
    ∧ ((generate_mask (fun _ _ _ => (0 : ℚ)) 100 50 8 (1 / 2)
        (default_rng (fun _ => 0))).1).length ≠ 100 := by
  constructor
  · rfl
  · intro h
    rw [show ((generate_mask (fun _ _ _ => (0 : ℚ)) 100 50 8 (1 / 2)
        (default_rng (fun _ => 0))).1).length = 63 from rfl] at h
    cases h
